import Mathlib

/-!
Verification of the snapshot ingestion and diff engine of the IGFollow
repository, as a shallow embedding in Lean 4.

Python string values are modelled as Lean `String` (a packed `List Char`);
the Python text helpers used by the code (`str.strip`, `str.lower`,
`str.lstrip("@")`, `str.splitlines`) are re-defined below over the
character list, restricted to ASCII data: the repository's identities are
ASCII usernames, and none of the statements below depend on the extra
Unicode whitespace/case folding that CPython would also apply.
-/

namespace IGFollow

/-- ASCII whitespace recognised by Python's `str.strip` / `str.splitlines`
(space, tab, newline, carriage return, vertical tab, form feed). -/
def pyIsSpace (c : Char) : Bool :=
  c.toNat = 32 || c.toNat = 9 || c.toNat = 10 || c.toNat = 13 || c.toNat = 11 || c.toNat = 12

/-- Python `str.strip()` on a character list: drop whitespace from both ends. -/
def stripList (l : List Char) : List Char :=
  ((l.dropWhile pyIsSpace).reverse.dropWhile pyIsSpace).reverse

/-- Python `str.strip()` (ASCII whitespace). -/
def pyStrip (s : String) : String := ⟨stripList s.data⟩

/-- Python `str.lower()` on one character (ASCII case mapping). -/
def lowerChar (c : Char) : Char :=
  if 65 ≤ c.toNat ∧ c.toNat ≤ 90 then Char.ofNat (c.toNat + 32) else c

/-- Python `str.lower()` (ASCII case mapping). -/
def pyLower (s : String) : String := ⟨s.data.map lowerChar⟩

/-- Python `str.lstrip("@")`: drop every leading `'@'`. -/
def lstripAtList (l : List Char) : List Char := l.dropWhile (fun c => c = '@')

/-- Source `app/forms.py`, `normalize_username`:
`cleaned = (username or "").strip().lstrip("@")`; `return cleaned.lower()`. -/
def normalize_username (s : String) : String :=
  pyLower ⟨lstripAtList (stripList s.data)⟩

/-! ### Diff engine (`app/diff.py`) -/

/-- Python `item.strip().lower()`, the normalization `compute_diff` applies to each
identity before set construction. -/
def pyStripLower (s : String) : String := pyLower (pyStrip s)

/-- Source `app/diff.py`, `SnapshotDiff` dataclass. -/
structure SnapshotDiff where
  added : List String
  removed : List String
deriving Repr, DecidableEq

/-- Python `sorted` on strings: ascending lexicographic order by code point.
(`List.insertionSort` is stable, like CPython's sort; for the deduplicated
inputs produced by `compute_diff` stability is irrelevant.) -/
def sortStrings (l : List String) : List String :=
  List.insertionSort (fun a b => a ≤ b) l

/-- Source `app/diff.py`, `compute_diff`:
`old_set = {item.strip().lower() for item in old if item}` (and likewise
`new_set`), `added = sorted(new_set - old_set)`,
`removed = sorted(old_set - new_set)`.  Python sets are modelled as
deduplicated lists; set difference is membership filtering, and `sorted`
of a set is `sortStrings` of that list. -/
def compute_diff (old new : List String) : SnapshotDiff :=
  let oldSet := ((old.filter (fun x => x ≠ "")).map pyStripLower).dedup
  let newSet := ((new.filter (fun x => x ≠ "")).map pyStripLower).dedup
  { added := sortStrings (newSet.filter (fun x => ¬ x ∈ oldSet)),
    removed := sortStrings (oldSet.filter (fun x => ¬ x ∈ newSet)) }

/-! ### Identity normalizer (`app/forms.py` `normalize_username`,
`app/views.py` `_normalize_username`) -/

/-- Source `app/views.py`, `_normalize_username`:
`value.strip().lstrip("@").lower()` — the same computation as
`forms.normalize_username`. -/
def _normalize_username (s : String) : String := normalize_username s

/-! ### Format detection and parsing (`app/forms.py`)

Fallible Python code is modelled in `Except String`: a `.error` value marks
the exception CPython would raise (its message names the exception).  The
`csv` and `json` standard-library helpers the source calls are modelled
below for the quote-free CSV rows and escape-light JSON documents the
repository handles; CSV quoting and JSON `\uXXXX`/float literals do not
occur in the repository's data or in any claim and are not modelled. -/

/-- A raw parsed row: `(username, full_name)` with `full_name` optional. -/
abbrev Row := String × Option String

/-- Python `str.splitlines()` scan over characters for the common terminators
(`"\n"`, `"\r\n"`, `"\r"`); the exotic Unicode terminators CPython also
recognises are not modelled.  A trailing terminator opens no extra line,
and the empty string has no lines. -/
def splitlinesAux : List Char → List Char → List (List Char)
  | [], cur => if cur.isEmpty then [] else [cur.reverse]
  | '\r' :: '\n' :: rest, cur => cur.reverse :: splitlinesAux rest []
  | '\r' :: rest, cur => cur.reverse :: splitlinesAux rest []
  | '\n' :: rest, cur => cur.reverse :: splitlinesAux rest []
  | c :: rest, cur => splitlinesAux rest (c :: cur)

/-- Python `str.splitlines()`. -/
def pySplitlines (s : String) : List String :=
  (splitlinesAux s.data []).map (fun l => ⟨l⟩)

/-- Split a character list at every occurrence of a delimiter character
(`str.split(delim)` / the `csv` cell split). -/
def splitOnChar (delim : Char) : List Char → List Char → List (List Char)
  | [], cur => [cur.reverse]
  | c :: rest, cur =>
    if c = delim then cur.reverse :: splitOnChar delim rest []
    else splitOnChar delim rest (c :: cur)

/-- Python `s.partition(sep)` without the separator component: `none` when
the separator does not occur, else the pieces before and after its first
occurrence.  (`sep in s` is exactly `(breakOnSeq sep.data s.data).isSome`.) -/
def breakOnSeq (sep : List Char) : List Char → Option (List Char × List Char)
  | [] => none
  | c :: rest =>
    if sep.isPrefixOf (c :: rest) then some ([], (c :: rest).drop sep.length)
    else (breakOnSeq sep rest).map (fun p => (c :: p.1, p.2))

/-- Source `app/forms.py`, `_looks_like_json`. -/
def _looks_like_json (filename contents : String) : Bool :=
  ".json".data.isSuffixOf filename.data
    || "[".data.isPrefixOf contents.data || "\x7b".data.isPrefixOf contents.data

/-- Source `app/forms.py`, `_looks_like_csv`:
`header = contents.splitlines()[0]` raises `IndexError` when the stripped
contents have no lines (for example a whitespace-only upload). -/
def _looks_like_csv (filename contents : String) : Except String Bool :=
  if ".csv".data.isSuffixOf filename.data then Except.ok true
  else
    match pySplitlines contents with
    | [] => Except.error "IndexError: list index out of range"
    | header :: _ => Except.ok (header.data.contains ',' || header.data.contains ';')

/-- One line split by `csv.reader`: a blank line yields no cells, any other
line is split at the delimiter (the repository's CSV data is quote-free, so
quoting is not modelled). -/
def pyCsvParseLine (delim : Char) (line : String) : List String :=
  if line = "" then [] else (splitOnChar delim line.data []).map (fun l => ⟨l⟩)

/-- Lookup in the `dict(zip(fieldnames, row))` built by `csv.DictReader`:
for a duplicated header name the later column wins, missing columns are
absent (`row.get` returns `None`). -/
def dget (d : List (String × String)) (k : String) : Option String :=
  (d.reverse.find? (fun p => p.1 == k)).map Prod.snd

/-- Python `x or y` on two optional strings, where `None` and `""` are
falsy.  A chain that ends in the falsy string `""` is collapsed to `none`:
every use in the source either tests the result for truthiness or later
maps `""` to `None`, so the collapse is observationally equal. -/
def pyOr (a b : Option String) : Option String :=
  match a with
  | some s => if s = "" then b else some s
  | none => b

/-- Source `app/forms.py`, `_parse_csv_export`, header branch, one row:
`username = row.get("username") or row.get("handle") or row.get("user") or
row.get("profile url") or row.get("profile")`;
`full_name = row.get("full_name") or row.get("name") or row.get("title")`;
the row is kept only `if username:`. -/
def csvDictRow (d : List (String × String)) : Option Row :=
  let username := pyOr (dget d "username") (pyOr (dget d "handle") (pyOr (dget d "user")
      (pyOr (dget d "profile url") (dget d "profile"))))
  let full_name := pyOr (dget d "full_name") (pyOr (dget d "name") (dget d "title"))
  match username with
  | none => none
  | some u => if u = "" then none else some (u, full_name)

/-- Source `app/forms.py`, `_parse_csv_export`.  The delimiter is `';'` when the
first line has a `';'` and no `','`, else `','`.  `DictReader.fieldnames`
is the parsed first line; when it is non-empty the remaining lines are
read as dicts (blank rows skipped, extra cells dropped, missing cells
absent), otherwise a plain `csv.reader` pass takes column 0 as username
and column 1 (when present) as display name.  `contents.splitlines()[0]`
raises `IndexError` on contents without lines (empty `.csv` upload). -/
def _parse_csv_export (contents : String) : Except String (List Row) :=
  match pySplitlines contents with
  | [] => Except.error "IndexError: list index out of range"
  | firstLine :: restLines =>
    let delimiter : Char :=
      if firstLine.data.contains ';' && !(firstLine.data.contains ',') then ';' else ','
    let fieldnames := pyCsvParseLine delimiter firstLine
    if fieldnames.isEmpty then
      Except.ok ((firstLine :: restLines).filterMap (fun l =>
        match pyCsvParseLine delimiter l with
        | [] => none
        | u :: rest => some ((u, rest.head?) : Row)))
    else
      Except.ok ((restLines.map (pyCsvParseLine delimiter)).filterMap (fun vals =>
        if vals.isEmpty then none else csvDictRow (fieldnames.zip vals)))

/-- Source `app/forms.py`, `_parse_plain_list`: one entry per non-blank stripped
line; split at the first `','`, else at the first `" - "`, else the whole
line is the username. -/
def _parse_plain_list (contents : String) : List Row :=
  (pySplitlines contents).filterMap (fun line =>
    let cleaned := pyStrip line
    if cleaned = "" then none
    else
      match breakOnSeq [','] cleaned.data with
      | some (u, fn) => some (⟨u⟩, some ⟨fn⟩)
      | none =>
        match breakOnSeq [' ', '-', ' '] cleaned.data with
        | some (u, fn) => some (⟨u⟩, some ⟨fn⟩)
        | none => some (cleaned, none))

/-! ### JSON export parsing (`app/forms.py`, `_parse_json_export`) -/

/-- A parsed JSON document (`json.loads` result).  Python floats do not
occur in the repository's exports; numbers are modelled as integers. -/
inductive JsonVal where
  | null
  | bool (b : Bool)
  | num (n : Int)
  | str (s : String)
  | arr (items : List JsonVal)
  | obj (fields : List (String × JsonVal))

/-- Python `obj.get(k)` on a parsed JSON object (`None` when the key is absent). -/
def jget (fields : List (String × JsonVal)) (k : String) : Option JsonVal :=
  (fields.find? (fun p => p.1 == k)).map Prod.snd

/-- Python truthiness of a JSON value. -/
def pyTruthy : JsonVal → Bool
  | .null => false
  | .bool b => b
  | .num n => !(n == 0)
  | .str s => !(s == "")
  | .arr items => !items.isEmpty
  | .obj fields => !fields.isEmpty

/-- Python `x or y` over optional JSON values (an absent key is `None`).
As with `pyOr`, a chain ending in a falsy value collapses to `none`; the
source only ever tests such results for truthiness or maps falsy display
names to `None` downstream, so the collapse is observationally equal. -/
def jOr (a b : Option JsonVal) : Option JsonVal :=
  match a with
  | some v => if pyTruthy v then some v else b
  | none => b

/-- Convert an extracted `full_name` slot for the `(username, full_name)`
entry list.  A truthy non-string display name would make the caller's
later `full_name.strip()` raise `AttributeError`; the model surfaces that
exception here, at the point the entry is materialised. -/
def asName : Option JsonVal → Except String (Option String)
  | none => Except.ok none
  | some (.str s) => Except.ok (some s)
  | some v =>
    if pyTruthy v then Except.error "AttributeError: full_name has no attribute strip"
    else Except.ok none

/-- Convert an extracted truthy `username` slot.  A truthy non-string
username would make the caller's later `normalize_username` raise
`AttributeError`; the model surfaces that exception here. -/
def asUsername : JsonVal → Except String String
  | .str s => Except.ok s
  | _ => Except.error "AttributeError: username has no attribute strip"

/-- The `seen`-guarded `entries.append` of `_parse_json_export`:
deduplication inside this parse is by `(username, display_name)` pair. -/
def pushUnique (acc : List Row) (e : Row) : List Row :=
  if e ∈ acc then acc else acc ++ [e]

/-- Append an entry when the username slot is truthy (`if username:`). -/
def appendIfTruthy (uv : JsonVal) (fn : Option JsonVal) (acc : List Row) :
    Except String (List Row) :=
  if pyTruthy uv then do
    let u ← asUsername uv
    let f ← asName fn
    pure (pushUnique acc (u, f))
  else pure acc

/-- The `path` component of `urllib.parse.urlparse` for the plain profile
URLs the exports carry: everything after `scheme://netloc`, with query and
fragment cut off; a string without `"://"` is all path. -/
def urlPath (href : String) : String :=
  let noFrag := match breakOnSeq ['#'] href.data with
    | some p => p.1
    | none => href.data
  let noQuery := match breakOnSeq ['?'] noFrag with
    | some p => p.1
    | none => noFrag
  match breakOnSeq [':', '/', '/'] noQuery with
  | none => ⟨noQuery⟩
  | some (_, afterScheme) =>
    match breakOnSeq ['/'] afterScheme with
    | none => ""
    | some (_, rest) => ⟨'/' :: rest⟩

/-- Python `str.strip("/")`. -/
def pyStripSlashes (s : String) : String :=
  ⟨((s.data.dropWhile (fun c => c = '/')).reverse.dropWhile (fun c => c = '/')).reverse⟩

/-- Source `app/forms.py`, `_username_from_href`: `None`/falsy href gives `None`;
otherwise `urlparse(href).path`, stripped of `'/'`, first path segment.
`urlparse` applied to a truthy non-string raises. -/
def _username_from_href (href : Option JsonVal) : Except String (Option String) :=
  match href with
  | none => Except.ok none
  | some (.str s) =>
    if s = "" then Except.ok none
    else
      let path := pyStripSlashes (urlPath s)
      if path = "" then Except.ok none
      else
        Except.ok (some (match breakOnSeq ['/'] path.data with
          | some p => (⟨p.1⟩ : String)
          | none => path))
  | some v =>
    if pyTruthy v then Except.error "TypeError: urlparse expects a string"
    else Except.ok none

/-- The `for item in obj["string_list_data"]` loop of `extract`:
`username = item.get("value") or _username_from_href(item.get("href"))`,
`full_name = display_name or item.get("title") or item.get("name")`.
A non-dict item makes `item.get` raise `AttributeError`. -/
def sldItems (display : Option JsonVal) :
    List JsonVal → List Row → Except String (List Row)
  | [], acc => Except.ok acc
  | item :: rest, acc =>
    match item with
    | .obj ifields => do
      let uOpt ← (match jget ifields "value" with
        | some vv =>
          if pyTruthy vv then pure (some vv)
          else (_username_from_href (jget ifields "href")).map (fun o => o.map JsonVal.str)
        | none => (_username_from_href (jget ifields "href")).map (fun o => o.map JsonVal.str))
      let fn := jOr display (jOr (jget ifields "title") (jget ifields "name"))
      let acc' ← (match uOpt with
        | some uv => appendIfTruthy uv fn acc
        | none => pure acc)
      sldItems display rest acc'
    | _ => Except.error "AttributeError: item has no attribute get"

mutual

/-- Source `app/forms.py`, `_parse_json_export`, inner `extract(obj, context_name)`:
a dict with a list-valued `"string_list_data"` is handled by `sldItems` and
recursion stops there; otherwise the direct `"username"` field, then a
non-container `"value"` field, are appended when truthy, and every
list/dict field value other than `"string_list_data"` is recursed into
with `obj.get("title") or context_name` as the inherited context. -/
def jsonExtract (v : JsonVal) (ctx : Option JsonVal) (acc : List Row) :
    Except String (List Row) :=
  match v with
  | .obj fields =>
    (match jget fields "string_list_data" with
     | some (.arr items) =>
       sldItems (jOr (jget fields "title") (jOr (jget fields "name") ctx)) items acc
     | _ => do
       let acc1 ← (match jget fields "username" with
         | some uv =>
           appendIfTruthy uv (jOr (jget fields "full_name") (jOr (jget fields "name") none)) acc
         | none => pure acc)
       let acc2 ← (match jget fields "value" with
         | some vv =>
           (match vv with
            | .obj _ => pure acc1
            | .arr _ => pure acc1
            | _ => appendIfTruthy vv (jOr (jget fields "title") (jOr (jget fields "name") ctx)) acc1)
         | none => pure acc1)
       jsonExtractFields fields (jOr (jget fields "title") ctx) acc2)
  | .arr items => jsonExtractList items ctx acc
  | _ => pure acc

/-- The `for key_name, value in obj.items()` loop of `extract`: skip
`"string_list_data"`, recurse into list/dict values. -/
def jsonExtractFields : List (String × JsonVal) → Option JsonVal → List Row →
    Except String (List Row)
  | [], _, acc => pure acc
  | (k, v) :: rest, ctx, acc =>
    if k = "string_list_data" then jsonExtractFields rest ctx acc
    else
      match v with
      | .arr items => do
          let acc' ← jsonExtract (.arr items) ctx acc
          jsonExtractFields rest ctx acc'
      | .obj fields => do
          let acc' ← jsonExtract (.obj fields) ctx acc
          jsonExtractFields rest ctx acc'
      | _ => jsonExtractFields rest ctx acc

/-- The `elif isinstance(obj, list)` branch of `extract`. -/
def jsonExtractList : List JsonVal → Option JsonVal → List Row →
    Except String (List Row)
  | [], _, acc => pure acc
  | item :: rest, ctx, acc => do
      let acc' ← jsonExtract item ctx acc
      jsonExtractList rest ctx acc'

end

/-! ### `json.loads` model

A recursive-descent reader for the JSON grammar fragment the exports use:
objects, arrays, strings with the common escapes, integer literals,
`true`/`false`/`null`, with JSON whitespace, and no trailing garbage.
`\uXXXX` escapes and fraction/exponent number forms are not modelled (they
appear in no claim input); on them the reader fails, which the caller
treats like malformed JSON.  Recursion is fuelled; the fuel budget is
generous for any document of the given length, and running out is a parse
failure. -/

/-- JSON whitespace (space, tab, newline, carriage return). -/
def jsonWs (cs : List Char) : List Char :=
  cs.dropWhile (fun c => c = ' ' || c = '\t' || c = '\n' || c = '\r')

def parseJsonStringAux : List Char → List Char → Option (String × List Char)
  | [], _ => none
  | '"' :: rest, acc => some (⟨acc.reverse⟩, rest)
  | ['\\'], _ => none
  | '\\' :: e :: rest2, acc =>
    if e = '"' then parseJsonStringAux rest2 ('"' :: acc)
    else if e = '\\' then parseJsonStringAux rest2 ('\\' :: acc)
    else if e = '/' then parseJsonStringAux rest2 ('/' :: acc)
    else if e = 'n' then parseJsonStringAux rest2 ('\n' :: acc)
    else if e = 't' then parseJsonStringAux rest2 ('\t' :: acc)
    else if e = 'r' then parseJsonStringAux rest2 ('\r' :: acc)
    else if e = 'b' then parseJsonStringAux rest2 ('\x08' :: acc)
    else if e = 'f' then parseJsonStringAux rest2 ('\x0c' :: acc)
    else none
  | c :: rest, acc =>
    if c.toNat < 32 then none else parseJsonStringAux rest (c :: acc)

def natFromDigits (ds : List Char) : Nat :=
  ds.foldl (fun n c => n * 10 + (c.toNat - 48)) 0

def parseJsonDigits (cs : List Char) : Option (Nat × List Char) :=
  let ds := cs.takeWhile Char.isDigit
  if ds.isEmpty then none else some (natFromDigits ds, cs.dropWhile Char.isDigit)

def guardIntTail (v : Int) (r : List Char) : Option (JsonVal × List Char) :=
  match r with
  | [] => some (.num v, r)
  | c :: _ => if c = '.' || c = 'e' || c = 'E' then none else some (.num v, r)

def parseJsonNum (cs : List Char) : Option (JsonVal × List Char) :=
  match cs with
  | '-' :: rest => (parseJsonDigits rest).bind (fun p => guardIntTail (-(p.1 : Int)) p.2)
  | _ => (parseJsonDigits cs).bind (fun p => guardIntTail (p.1 : Int) p.2)

/-- Insert a key/value pair as Python's dict construction does: a repeated
key keeps its first position but takes the later value. -/
def insertKV (fields : List (String × JsonVal)) (k : String) (v : JsonVal) :
    List (String × JsonVal) :=
  if (fields.find? (fun p => p.1 == k)).isSome
  then fields.map (fun p => if p.1 == k then (k, v) else p)
  else fields ++ [(k, v)]

mutual

def parseJsonVal : Nat → List Char → Option (JsonVal × List Char)
  | 0, _ => none
  | fuel + 1, cs =>
    match jsonWs cs with
    | 'n' :: 'u' :: 'l' :: 'l' :: rest => some (.null, rest)
    | 't' :: 'r' :: 'u' :: 'e' :: rest => some (.bool true, rest)
    | 'f' :: 'a' :: 'l' :: 's' :: 'e' :: rest => some (.bool false, rest)
    | '"' :: rest => (parseJsonStringAux rest []).map (fun p => (.str p.1, p.2))
    | '[' :: rest =>
      (match jsonWs rest with
       | ']' :: rest2 => some (.arr [], rest2)
       | _ => parseJsonArrItems fuel rest [])
    | '\x7b' :: rest =>
      (match jsonWs rest with
       | '\x7d' :: rest2 => some (.obj [], rest2)
       | _ => parseJsonObjItems fuel rest [])
    | cs' => parseJsonNum cs'

def parseJsonArrItems : Nat → List Char → List JsonVal → Option (JsonVal × List Char)
  | 0, _, _ => none
  | fuel + 1, cs, acc =>
    match parseJsonVal fuel cs with
    | none => none
    | some (v, rest) =>
      match jsonWs rest with
      | ',' :: rest2 => parseJsonArrItems fuel rest2 (acc ++ [v])
      | ']' :: rest2 => some (.arr (acc ++ [v]), rest2)
      | _ => none

def parseJsonObjItems : Nat → List Char → List (String × JsonVal) →
    Option (JsonVal × List Char)
  | 0, _, _ => none
  | fuel + 1, cs, fields =>
    match jsonWs cs with
    | '"' :: rest =>
      (match parseJsonStringAux rest [] with
       | none => none
       | some (k, rest1) =>
         match jsonWs rest1 with
         | ':' :: rest2 =>
           (match parseJsonVal fuel rest2 with
            | none => none
            | some (v, rest3) =>
              match jsonWs rest3 with
              | ',' :: rest4 => parseJsonObjItems fuel rest4 (insertKV fields k v)
              | '\x7d' :: rest4 => some (.obj (insertKV fields k v), rest4)
              | _ => none)
         | _ => none)
    | _ => none

end

/-- Python `json.loads`: parse one JSON value and require only whitespace after
it. -/
def jsonLoads (s : String) : Option JsonVal :=
  match parseJsonVal (2 * s.data.length + 2) s.data with
  | some (v, rest) => if jsonWs rest = [] then some v else none
  | none => none

/-- Source `app/forms.py`, `_parse_json_export`: malformed JSON yields the empty
row list (`except json.JSONDecodeError: return []`); otherwise the
recursive `extract` walk runs from the document root with no inherited
context name. -/
def _parse_json_export (contents : String) : Except String (List Row) :=
  match jsonLoads contents with
  | none => Except.ok []
  | some payload => jsonExtract payload none []

/-! ### Row deduplication and the top-level parse
(`app/forms.py`, `parse_snapshot_file`) -/

/-- Python `full_name.strip() if full_name else None` in the dedup loop of
`parse_snapshot_file`: a falsy display name becomes `None`, a truthy one
is stripped. -/
def pyOptName : Option String → Option String
  | none => none
  | some s => if s = "" then none else some (pyStrip s)

/-- The `unique: OrderedDict` loop of `parse_snapshot_file`, with the set
of keys inserted so far made explicit: normalize each username, drop empty
results, keep the first occurrence per normalized key in insertion
order. -/
def dedupAux : List Row → List String → List Row
  | [], _ => []
  | (u, fn) :: rest, seen =>
    let n := normalize_username u
    if n = "" then dedupAux rest seen
    else if n ∈ seen then dedupAux rest seen
    else (n, pyOptName fn) :: dedupAux rest (n :: seen)

/-- The dedup stage of `parse_snapshot_file` (`OrderedDict` keyed by
normalized identity, first occurrence wins, `list(unique.values())`). -/
def dedupRows (rows : List Row) : List Row := dedupAux rows []

/-- The fallback chain of `parse_snapshot_file` over the stripped text and
lowercased filename: JSON-looking content through `_parse_json_export`;
when that yields no rows and the content looks delimited, through
`_parse_csv_export`; when still no rows, through `_parse_plain_list`. -/
def strategyRows (fname stripped : String) : Except String (List Row) := do
  let rows ← if _looks_like_json fname stripped then _parse_json_export stripped
             else pure []
  let rows ←
    if rows.isEmpty then
      match _looks_like_csv fname stripped with
      | Except.error e => Except.error e
      | Except.ok true => _parse_csv_export stripped
      | Except.ok false => pure rows
    else pure rows
  pure (if rows.isEmpty then _parse_plain_list stripped else rows)

/-- Source `app/forms.py`, `parse_snapshot_file`.  The upload's bytes are modelled
after the `utf-8-sig` decode, as text (an upload that is not valid UTF-8
would already raise `UnicodeDecodeError` in the decode; that byte-level
failure is outside this text-level model).  Empty content returns `[]`
before any strategy runs; otherwise the fallback chain provides the raw
rows and the `OrderedDict` loop deduplicates them. -/
def parse_snapshot_file (raw filename : String) : Except String (List Row) :=
  if raw = "" then Except.ok []
  else (strategyRows (pyLower filename) (pyStrip raw)).map dedupRows

/-! ### C7: first-occurrence-wins deduplication -/

/-- A prepared entry dict from `app/views.py`, `_prepare_entries`. -/
structure PreparedEntry where
  username : String
  full_name : String
  profile_pic_url : String
deriving Repr, DecidableEq

/-- Source `app/views.py`, `_prepare_entries`, with the Instagram service
disconnected (the profile-lookup branch is live network I/O outside this
core): normalize, drop empty, skip already-prepared keys, keep insertion
order; `resolved_name = (full_name or "").strip()` and an empty avatar. -/
def prepareAux : List Row → List String → List PreparedEntry
  | [], _ => []
  | (u, fn) :: rest, seen =>
    let n := _normalize_username u
    if n = "" then prepareAux rest seen
    else if n ∈ seen then prepareAux rest seen
    else { username := n, full_name := pyStrip (fn.getD ""), profile_pic_url := "" }
        :: prepareAux rest (n :: seen)

def _prepare_entries (rows : List Row) : List PreparedEntry := prepareAux rows []

/-- The claim's first stage, in its own words: normalize every pair and
drop the pairs whose normalized identity is empty. -/
def claimNormalizeRows (rows : List Row) : List Row :=
  (rows.map (fun p => ((normalize_username p.1, pyOptName p.2) : Row))).filter
    (fun p => p.1 ≠ "")

/-- The claim's second stage, in its own words: among pairs sharing a
normalized identity only the first occurrence (with its display name) is
kept, in order; every later duplicate is discarded. -/
def claimFirstWins : List Row → List Row
  | [] => []
  | p :: rest => p :: claimFirstWins (rest.filter (fun q => q.1 ≠ p.1))
termination_by l => l.length
decreasing_by
  simp_wf
  exact Nat.lt_succ_of_le (List.length_filter_le _ _)

/-- The first truthy value in a list of optional cell values — the amended
claim's "first matching alias wins" reading, where an alias matches when
its column is present with a nonempty value. -/
def firstTruthy (vals : List (Option String)) : Option String :=
  (vals.filterMap (fun v => v.bind (fun s => if s = "" then none else some s))).head?

/-- Modelled from the amended claim: try the aliases in order against the
row dict and return the first truthy hit. -/
def specAliasLookup (aliases : List String) (d : List (String × String)) : Option String :=
  firstTruthy (aliases.map (dget d))

/-! ### Snapshot store ordering (`app/models.py` `Snapshot`,
`latest_snapshot`; `app/views.py` `_store_snapshot`)

`created_at` is `datetime.utcnow` read at insert time; the clock is made
an explicit `now : Nat` argument.  The entry rows and the diff computed by
`_store_snapshot` are the `dedupRows`/`compute_diff` stages modelled
above and are irrelevant to timestamp ordering, so the store model keeps
only the columns `latest_snapshot` consults. -/

structure MSnapshot where
  id : Nat
  accountId : Nat
  snapshotType : String
  createdAt : Nat
deriving Repr, DecidableEq

structure StoreState where
  snapshots : List MSnapshot
  nextId : Nat
deriving Repr, DecidableEq

/-- Source `app/models.py`, `TrackedAccount.latest_snapshot`: filter by account
and type, `ORDER BY created_at DESC`, first row.  The database breaks
`created_at` ties arbitrarily; the model resolves a tie towards the later
inserted row. -/
def latest_snapshot (st : StoreState) (acc : Nat) (ty : String) : Option MSnapshot :=
  (st.snapshots.filter (fun s => s.accountId == acc && s.snapshotType == ty)).foldl
    (fun best s =>
      match best with
      | none => some s
      | some b => if b.createdAt ≤ s.createdAt then some s else some b)
    none

/-- Source `app/views.py`, `_store_snapshot` /
`Snapshot(tracked_account_id=..., snapshot_type=...)` with
`created_at=datetime.utcnow()`: append a new snapshot row stamped with the
current clock reading.  Nothing compares `now` against existing rows. -/
def _store_snapshot (st : StoreState) (acc : Nat) (ty : String) (now : Nat) :
    StoreState × MSnapshot :=
  let snew : MSnapshot :=
    { id := st.nextId, accountId := acc, snapshotType := ty, createdAt := now }
  ({ snapshots := st.snapshots ++ [snew], nextId := st.nextId + 1 }, snew)

/-! ### Snapshot listing and export rows (`app/views.py`,
`_snapshot_entries`, `export_snapshot`) -/

/-- A `SnapshotEntry` row (`app/models.py`): `username` is a non-nullable
column, `full_name` and `profile_pic_url` are nullable. -/
structure SnapshotEntryRec where
  username : String
  full_name : Option String
  profile_pic_url : Option String
deriving Repr, DecidableEq

/-- One dict produced by `_snapshot_entries`. -/
structure EntryView where
  username : String
  full_name : String
  avatar_url : String
deriving Repr, DecidableEq

/-- Source `app/views.py`, `_avatar_url`. -/
def _avatar_url (username : String) : String :=
  let safe := pyStrip username
  if safe = "" then "" else "https://unavatar.io/instagram/" ++ safe

/-- The sort relation of `_snapshot_entries`:
`key=lambda entry: (entry.username or "").lower()` — the `or ""` guard is
the identity on the non-nullable string column. -/
def entryLe (a b : SnapshotEntryRec) : Prop :=
  pyLower a.username ≤ pyLower b.username

instance : DecidableRel entryLe := fun a b =>
  inferInstanceAs (Decidable (pyLower a.username ≤ pyLower b.username))

instance : IsTotal SnapshotEntryRec entryLe :=
  ⟨fun a b => le_total (pyLower a.username) (pyLower b.username)⟩

instance : IsTrans SnapshotEntryRec entryLe :=
  ⟨fun _ _ _ hab hbc => le_trans hab hbc⟩

/-- Source `app/views.py`, `_snapshot_entries` on a snapshot's entry rows: sort
ascending by lowercased username (`sorted` is stable, as is
`List.insertionSort`), cut to `limit` when given, then build the result
dicts with `full_name = entry.full_name or ""` and
`avatar_url = entry.profile_pic_url or _avatar_url(username)`.  (The
`if not snapshot: return []` guard is the caller passing no rows.) -/
def _snapshot_entries (entries : List SnapshotEntryRec) (limit : Option Nat) :
    List EntryView :=
  let sorted := List.insertionSort entryLe entries
  let cut := match limit with
    | some n => sorted.take n
    | none => sorted
  cut.map (fun e =>
    { username := e.username,
      full_name := match e.full_name with
        | some s => s
        | none => "",
      avatar_url := match e.profile_pic_url with
        | some p => if p = "" then _avatar_url e.username else p
        | none => _avatar_url e.username })

/-! ### Theorems -/

-- Auxiliary character facts used for the normalizer theorems.

theorem toNat_ofNat_of_valid (n : Nat) (h : n < 55296) : (Char.ofNat n).toNat = n := by
  rw [Char.ofNat, dif_pos (Or.inl h)]
  simp [Char.ofNatAux, Char.toNat, UInt32.ofNat']
  rfl

theorem lowerChar_toNat_of_upper {c : Char} (h : 65 ≤ c.toNat ∧ c.toNat ≤ 90) :
    (lowerChar c).toNat = c.toNat + 32 := by
  rw [lowerChar, if_pos h]
  exact toNat_ofNat_of_valid _ (by omega)

theorem lowerChar_idem (c : Char) : lowerChar (lowerChar c) = lowerChar c := by
  by_cases h : 65 ≤ c.toNat ∧ c.toNat ≤ 90
  · have h1 : (lowerChar c).toNat = c.toNat + 32 := lowerChar_toNat_of_upper h
    rw [lowerChar, if_neg]
    omega
  · have hc : lowerChar c = c := by rw [lowerChar, if_neg h]
    rw [hc, hc]

theorem lowerChar_ne_at {c : Char} (h : ¬ c = '@') : ¬ lowerChar c = '@' := by
  by_cases hu : 65 ≤ c.toNat ∧ c.toNat ≤ 90
  · have h1 : (lowerChar c).toNat = c.toNat + 32 := lowerChar_toNat_of_upper hu
    intro he
    have : (lowerChar c).toNat = 64 := by rw [he]; rfl
    omega
  · rw [lowerChar, if_neg hu]; exact h

theorem sortStrings_sorted (l : List String) :
    (sortStrings l).Sorted (fun a b : String => a ≤ b) :=
  List.sorted_insertionSort _ l

theorem sortStrings_perm (l : List String) : (sortStrings l).Perm l :=
  List.perm_insertionSort _ l

theorem mem_sortStrings {a : String} {l : List String} : a ∈ sortStrings l ↔ a ∈ l :=
  (sortStrings_perm l).mem_iff

/-- A sorted, duplicate-free list of strings is strictly sorted. -/
theorem sortStrings_sorted_lt {l : List String} (h : l.Nodup) :
    (sortStrings l).Sorted (fun a b : String => a < b) := by
  have hs := sortStrings_sorted l
  have hn : (sortStrings l).Nodup := ((sortStrings_perm l).nodup_iff).mpr h
  exact List.Pairwise.imp₂ (fun a b hle hne => lt_of_le_of_ne hle hne) hs hn

/-- Sequences all of whose elements are already-normalized identities
(nonempty, trimmed, lowercase) are untouched by the set construction of
`compute_diff`. -/
theorem normalized_filter_map_eq {l : List String}
    (h : ∀ x ∈ l, pyStripLower x = x ∧ x ≠ "") :
    (l.filter (fun x => x ≠ "")).map pyStripLower = l := by
  have hf : l.filter (fun x => x ≠ "") = l :=
    List.filter_eq_self.mpr (fun x hx => by simpa using (h x hx).2)
  rw [hf]
  have : ∀ x ∈ l, pyStripLower x = id x := fun x hx => (h x hx).1
  rw [List.map_congr_left this, List.map_id]

/-- C2: for identity sequences (elements already normalized and nonempty),
`compute_diff` returns `added` = the ascending strictly-sorted enumeration
of the set `new − old`, and `removed` = that of `old − new`.  The two
special cases `diff([], new)` and `diff(old, [])` of the claim are the
instances `old := []` and `new := []`. -/
theorem C2_compute_diff_sorted_set_difference (old new : List String)
    (hold : ∀ x ∈ old, pyStripLower x = x ∧ x ≠ "")
    (hnew : ∀ x ∈ new, pyStripLower x = x ∧ x ≠ "") :
    ((compute_diff old new).added.Sorted (fun a b : String => a < b)) ∧
    (∀ a, a ∈ (compute_diff old new).added ↔ a ∈ new ∧ ¬ a ∈ old) ∧
    ((compute_diff old new).removed.Sorted (fun a b : String => a < b)) ∧
    (∀ a, a ∈ (compute_diff old new).removed ↔ a ∈ old ∧ ¬ a ∈ new) := by
  have hO := normalized_filter_map_eq hold
  have hN := normalized_filter_map_eq hnew
  have hadded : (compute_diff old new).added
      = sortStrings (new.dedup.filter (fun x => ¬ x ∈ old.dedup)) := by
    simp only [compute_diff, hO, hN]
  have hremoved : (compute_diff old new).removed
      = sortStrings (old.dedup.filter (fun x => ¬ x ∈ new.dedup)) := by
    simp only [compute_diff, hO, hN]
  refine ⟨?_, ?_, ?_, ?_⟩
  · rw [hadded]
    exact sortStrings_sorted_lt (List.Nodup.filter _ new.nodup_dedup)
  · intro a
    rw [hadded, mem_sortStrings, List.mem_filter]
    simp [List.mem_dedup]
  · rw [hremoved]
    exact sortStrings_sorted_lt (List.Nodup.filter _ old.nodup_dedup)
  · intro a
    rw [hremoved, mem_sortStrings, List.mem_filter]
    simp [List.mem_dedup]

theorem C2_compute_diff_sorted_set_difference_witness :
    "carol" ∈ (compute_diff ["bob", "alice"] ["alice", "carol"]).added ∧
    ¬ "alice" ∈ (compute_diff ["bob", "alice"] ["alice", "carol"]).added ∧
    "bob" ∈ (compute_diff ["bob", "alice"] ["alice", "carol"]).removed := by
  have h := C2_compute_diff_sorted_set_difference ["bob", "alice"] ["alice", "carol"]
    (by decide) (by decide)
  refine ⟨(h.2.1 "carol").mpr (by decide), ?_, (h.2.2.2 "bob").mpr (by decide)⟩
  intro hc
  exact absurd ((h.2.1 "alice").mp hc) (by decide)

/-- C6: identities are compared post-normalization only, so two sequences
with the same normalized value sets produce an empty diff; in particular
`compute_diff X X = ⟨[], []⟩` (take `Y := X`), and case or surrounding
whitespace variance never produces a spurious diff. -/
theorem C6_no_spurious_diff_post_normalization (X Y : List String)
    (h : (X.filter (fun x => x ≠ "")).map pyStripLower
       = (Y.filter (fun x => x ≠ "")).map pyStripLower) :
    compute_diff X Y = ⟨[], []⟩ := by
  have hfilter : ∀ l : List String,
      l.filter (fun x => ¬ x ∈ l) = [] := by
    intro l
    rw [List.filter_eq_nil_iff]
    intro a ha
    simpa using ha
  simp only [compute_diff, h]
  rw [hfilter]
  rfl

theorem C6_no_spurious_diff_post_normalization_witness :
    compute_diff ["Alice", "BOB"] ["alice", "bob"] = ⟨[], []⟩ :=
  C6_no_spurious_diff_post_normalization ["Alice", "BOB"] ["alice", "bob"] (by decide)

theorem head_dropWhile_false (p : Char → Bool) :
    ∀ (l : List Char) (c : Char) (rest : List Char),
      l.dropWhile p = c :: rest → p c = false := by
  intro l
  induction l with
  | nil => intro c rest h; simp [List.dropWhile] at h
  | cons a t ih =>
    intro c rest h
    rw [List.dropWhile_cons] at h
    by_cases hp : p a = true
    · rw [if_pos hp] at h; exact ih c rest h
    · rw [if_neg hp] at h
      cases h
      simpa using hp

/-- C3 counterexample: the normalizer is not idempotent.  `lstrip("@")` can
expose whitespace that the earlier `strip()` did not remove:
`normalize("@ alice") = " alice"` but `normalize(" alice") = "alice"`. -/
theorem C3_normalize_not_idempotent_counterexample :
    ¬ (normalize_username (normalize_username "@ alice")
        = normalize_username "@ alice") := by decide

/-- C3 amended: normalization is idempotent for every input whose normalized
form carries no surrounding whitespace — equivalently, whenever no
whitespace directly follows the leading run of `'@'` characters.  The
counterexample above shows the unconditional claim fails exactly when
`lstrip("@")` re-exposes whitespace. -/
theorem C3_normalize_idempotent_on_trimmed (x : String)
    (h : pyStrip (normalize_username x) = normalize_username x) :
    normalize_username (normalize_username x) = normalize_username x := by
  set y := lstripAtList (stripList x.data) with hy
  have hnx : normalize_username x = ⟨List.map lowerChar y⟩ := rfl
  have hdata : (normalize_username x).data = List.map lowerChar y := by rw [hnx]
  have hstrip : stripList (normalize_username x).data = (normalize_username x).data :=
    congrArg String.data h
  have hlstrip : lstripAtList (normalize_username x).data = (normalize_username x).data := by
    rw [hdata]
    cases hcase : y with
    | nil => rfl
    | cons c t =>
      have hc : (fun c : Char => decide (c = '@')) c = false :=
        head_dropWhile_false _ (stripList x.data) c t (by rw [← lstripAtList, ← hy, hcase])
      have hc' : ¬ c = '@' := by simpa using hc
      have hlc : ¬ lowerChar c = '@' := lowerChar_ne_at hc'
      rw [List.map_cons, lstripAtList, List.dropWhile_cons, if_neg (by simpa using hlc)]
  calc normalize_username (normalize_username x)
      = pyLower ⟨lstripAtList (stripList (normalize_username x).data)⟩ := rfl
    _ = pyLower ⟨(normalize_username x).data⟩ := by rw [hstrip, hlstrip]
    _ = ⟨List.map lowerChar (List.map lowerChar y)⟩ := by rw [hdata]; rfl
    _ = ⟨List.map lowerChar y⟩ := by
        rw [List.map_map]
        congr 1
        exact List.map_congr_left (fun c _ => lowerChar_idem c)
    _ = normalize_username x := hnx.symm

theorem C3_normalize_idempotent_on_trimmed_witness :
    normalize_username (normalize_username "@Alice")
      = normalize_username "@Alice" :=
  C3_normalize_idempotent_on_trimmed "@Alice" (by decide)

/-- C1: evaluating `parse_snapshot_file` at the failing input.  A
whitespace-only upload with no filename is non-empty, so the early return
is skipped, while the stripped text has no lines: `_looks_like_json` is
false, the fallback chain consults `_looks_like_csv`, and
`contents.splitlines()[0]` raises `IndexError` — the function does not
return an empty row list as the claim requires. -/
theorem C1_parse_snapshot_file_raises_on_whitespace_only :
    parse_snapshot_file "   " "" = Except.error "IndexError: list index out of range" := by
  rfl

/-- C8: the claim's JSON scenario.  The `string_list_data` entry's `value`
becomes the username and the enclosing object's `title` its display name;
the whole parse returns exactly the row `("alice", "Alice")`, so the row
set includes that pair. -/
theorem C8_json_string_list_data_includes_row :
    parse_snapshot_file
        "[\x7b\"title\":\"Alice\",\"string_list_data\":[\x7b\"value\":\"alice\",\"href\":\"https://x/alice/\"\x7d]\x7d]"
        "followers.json"
      = Except.ok [("alice", some "Alice")] := by
  rfl

/-- The dedup loop only emits rows whose normalized username is nonempty
and not previously seen, and the emitted usernames are pairwise
distinct. -/
theorem dedupAux_props : ∀ (rows : List Row) (seen : List String),
    (∀ p ∈ dedupAux rows seen, p.1 ≠ "" ∧ ¬ p.1 ∈ seen) ∧
    ((dedupAux rows seen).map Prod.fst).Nodup := by
  intro rows
  induction rows with
  | nil =>
    intro seen
    refine ⟨?_, ?_⟩
    · intro p hp; simp [dedupAux] at hp
    · simp [dedupAux]
  | cons r rest ih =>
    intro seen
    obtain ⟨u, fn⟩ := r
    by_cases h1 : normalize_username u = ""
    · simpa [dedupAux, h1] using ih seen
    · by_cases h2 : normalize_username u ∈ seen
      · simpa [dedupAux, h1, h2] using ih seen
      · have hunfold : dedupAux ((u, fn) :: rest) seen
            = (normalize_username u, pyOptName fn)
              :: dedupAux rest (normalize_username u :: seen) := by
          simp [dedupAux, h1, h2]
        obtain ⟨ihmem, ihnodup⟩ := ih (normalize_username u :: seen)
        refine ⟨?_, ?_⟩
        · intro p hp
          rw [hunfold, List.mem_cons] at hp
          rcases hp with hp | hp
          · rw [hp]; exact ⟨h1, h2⟩
          · obtain ⟨hne, hnmem⟩ := ihmem p hp
            exact ⟨hne, fun hc => hnmem (List.mem_cons_of_mem _ hc)⟩
        · rw [hunfold, List.map_cons, List.nodup_cons]
          refine ⟨?_, ihnodup⟩
          intro hc
          obtain ⟨p, hp, hfst⟩ := List.mem_map.mp hc
          exact (ihmem p hp).2 (hfst ▸ List.mem_cons_self _ _)

/-- C9: whenever `parse_snapshot_file` returns (rather than raising),
every returned username is nonempty and the usernames are pairwise
distinct. -/
theorem C9_parse_rows_nonempty_and_distinct (raw filename : String) (rows : List Row)
    (h : parse_snapshot_file raw filename = Except.ok rows) :
    (∀ p ∈ rows, p.1 ≠ "") ∧ (rows.map Prod.fst).Nodup := by
  unfold parse_snapshot_file at h
  by_cases hr : raw = ""
  · rw [if_pos hr] at h
    injection h with h
    subst h
    exact ⟨fun p hp => absurd hp (List.not_mem_nil p), List.nodup_nil⟩
  · rw [if_neg hr] at h
    cases he : strategyRows (pyLower filename) (pyStrip raw) with
    | error e => rw [he] at h; simp [Except.map] at h
    | ok r =>
      rw [he] at h
      simp only [Except.map] at h
      injection h with h
      subst h
      obtain ⟨hmem, hnodup⟩ := dedupAux_props r []
      exact ⟨fun p hp => (hmem p hp).1, hnodup⟩

theorem C9_parse_rows_nonempty_and_distinct_witness :
    parse_snapshot_file "carol\n@dave\n" "followers.txt"
      = Except.ok [("carol", none), ("dave", none)] ∧
    (([("carol", (none : Option String)), ("dave", none)] : List Row).map Prod.fst).Nodup := by
  have hp : parse_snapshot_file "carol\n@dave\n" "followers.txt"
      = Except.ok [("carol", none), ("dave", none)] := by rfl
  exact ⟨hp, (C9_parse_rows_nonempty_and_distinct "carol\n@dave\n" "followers.txt" _ hp).2⟩

theorem dedupAux_eq_claimFirstWins : ∀ (rows : List Row) (seen : List String),
    dedupAux rows seen
      = claimFirstWins ((claimNormalizeRows rows).filter (fun p => ¬ p.1 ∈ seen)) := by
  intro rows
  induction rows with
  | nil => intro seen; simp [dedupAux, claimNormalizeRows, claimFirstWins]
  | cons r rest ih =>
    intro seen
    obtain ⟨u, fn⟩ := r
    have hnorm : claimNormalizeRows ((u, fn) :: rest)
        = (((normalize_username u, pyOptName fn) : Row) :: (rest.map
            (fun p => ((normalize_username p.1, pyOptName p.2) : Row)))).filter
            (fun p => p.1 ≠ "") := by
      simp [claimNormalizeRows]
    by_cases h1 : normalize_username u = ""
    · rw [hnorm, List.filter_cons_of_neg (by simpa using h1)]
      simpa [dedupAux, h1, claimNormalizeRows] using ih seen
    · rw [hnorm, List.filter_cons_of_pos (by simpa using h1)]
      by_cases h2 : normalize_username u ∈ seen
      · rw [List.filter_cons_of_neg (by simpa using h2)]
        simpa [dedupAux, h1, h2, claimNormalizeRows] using ih seen
      · rw [List.filter_cons_of_pos (by simpa using h2)]
        have hunfold : dedupAux ((u, fn) :: rest) seen
            = (normalize_username u, pyOptName fn)
              :: dedupAux rest (normalize_username u :: seen) := by
          simp [dedupAux, h1, h2]
        rw [hunfold, claimFirstWins, ih (normalize_username u :: seen)]
        congr 1
        simp only [claimNormalizeRows, List.filter_filter]
        congr 1
        apply List.filter_congr
        intro p hp
        by_cases ha : p.1 = normalize_username u <;> by_cases hb : p.1 ∈ seen <;>
          by_cases hc : p.1 = "" <;> simp [ha, hb, hc, List.mem_cons]

/-- C7: the dedup stage of `parse_snapshot_file` is exactly
normalize-drop-empty followed by first-occurrence-wins in insertion order
(left conjunct); a later duplicate is discarded even when it carries a
fuller display name (middle conjunct); and `_prepare_entries` keeps the
same identities in the same order (right conjunct). -/
theorem C7_dedup_first_occurrence_wins :
    (∀ rows : List Row, dedupRows rows = claimFirstWins (claimNormalizeRows rows)) ∧
    dedupRows [("alice", none), ("@Alice", some "Alice Fullname")] = [("alice", none)] ∧
    (∀ rows : List Row,
      (_prepare_entries rows).map PreparedEntry.username = (dedupRows rows).map Prod.fst) := by
  refine ⟨?_, by rfl, ?_⟩
  · intro rows
    have h := dedupAux_eq_claimFirstWins rows []
    simpa [dedupRows] using h
  · intro rows
    suffices h : ∀ (rows : List Row) (seen : List String),
        (prepareAux rows seen).map PreparedEntry.username
          = (dedupAux rows seen).map Prod.fst from h rows []
    intro rows
    induction rows with
    | nil => intro seen; simp [prepareAux, dedupAux]
    | cons r rest ih =>
      intro seen
      obtain ⟨u, fn⟩ := r
      by_cases h1 : normalize_username u = ""
      · simpa [prepareAux, dedupAux, _normalize_username, h1] using ih seen
      · by_cases h2 : normalize_username u ∈ seen
        · simpa [prepareAux, dedupAux, _normalize_username, h1, h2] using ih seen
        · simpa [prepareAux, dedupAux, _normalize_username, h1, h2] using
            ih (normalize_username u :: seen)

/-! ### C4: CSV header alias matching -/

/-- C4 counterexample: header aliases are matched case-sensitively, not
case-insensitively.  A header spelled `Username` — equal to the alias
`username` up to case — matches no alias, so the data row `alice` is
dropped and the CSV parse returns no rows, while the identical file with
the lowercase header returns the row. -/
theorem C4_csv_header_alias_case_sensitive_counterexample :
    _parse_csv_export "Username\nalice" = Except.ok [] ∧
    _parse_csv_export "username\nalice" = Except.ok [("alice", none)] := by
  exact ⟨rfl, rfl⟩

theorem foldr_pyOr_eq_firstTruthy (vals : List (Option String)) :
    vals.foldr pyOr none = firstTruthy vals := by
  induction vals with
  | nil => rfl
  | cons v vs ih =>
    cases v with
    | none => simpa [firstTruthy, pyOr] using ih
    | some s =>
      by_cases h : s = ""
      · simpa [firstTruthy, pyOr, h] using ih
      · simp [firstTruthy, pyOr, h]

theorem pyOr_pyOr_none (a b : Option String) :
    pyOr (pyOr a b) none = pyOr a (pyOr b none) := by
  cases a with
  | none => rfl
  | some s => by_cases h : s = "" <;> simp [pyOr, h]

/-- C4 amended: for every row dict, the extracted username is the first
truthy value among the columns `username`, `handle`, `user`,
`profile url`, `profile` — matched by exact (case-sensitive) header name —
and, when the row is kept, its display name is likewise the first truthy
value among `full_name`, `name`, `title`.  (The extracted display-name
slot is compared after collapsing a falsy `""` to `none`, which the
source's dedup stage does anyway via `full_name.strip() if full_name else
None`.) -/
theorem C4_csv_header_alias_first_match (d : List (String × String)) :
    (csvDictRow d).map (fun r => ((r.1, pyOr r.2 none) : Row))
      = match specAliasLookup ["username", "handle", "user", "profile url", "profile"] d with
        | none => none
        | some u => some ((u, specAliasLookup ["full_name", "name", "title"] d) : Row) := by
  have hU : pyOr (pyOr (dget d "username") (pyOr (dget d "handle") (pyOr (dget d "user")
        (pyOr (dget d "profile url") (dget d "profile"))))) none
      = specAliasLookup ["username", "handle", "user", "profile url", "profile"] d := by
    rw [pyOr_pyOr_none, pyOr_pyOr_none, pyOr_pyOr_none, pyOr_pyOr_none]
    exact foldr_pyOr_eq_firstTruthy
      [dget d "username", dget d "handle", dget d "user", dget d "profile url", dget d "profile"]
  have hF : pyOr (pyOr (dget d "full_name") (pyOr (dget d "name") (dget d "title"))) none
      = specAliasLookup ["full_name", "name", "title"] d := by
    rw [pyOr_pyOr_none, pyOr_pyOr_none]
    exact foldr_pyOr_eq_firstTruthy [dget d "full_name", dget d "name", dget d "title"]
  rw [← hU, ← hF]
  simp only [csvDictRow]
  cases hu : pyOr (dget d "username") (pyOr (dget d "handle") (pyOr (dget d "user")
      (pyOr (dget d "profile url") (dget d "profile")))) with
  | none => simp [pyOr]
  | some s =>
    by_cases h : s = ""
    · simp [pyOr, h]
    · simp [pyOr, h]

/-- C5 counterexample: two snapshots of the same `(subject, type)` stored
at the same clock reading receive equal `created_at` stamps — the second
one is not strictly greater than the prior one, so the claimed strict
total order fails whenever the wall clock does not advance between
inserts. -/
theorem C5_created_at_not_strictly_increasing_counterexample :
    ¬ ((_store_snapshot (_store_snapshot ⟨[], 0⟩ 1 "followers" 5).1 1 "followers" 5).2.createdAt
        > (_store_snapshot ⟨[], 0⟩ 1 "followers" 5).2.createdAt) := by
  decide

theorem latest_foldl_bound (now : Nat) :
    ∀ (l : List MSnapshot) (b : Option MSnapshot),
      (∀ s ∈ l, s.createdAt < now) →
      (b = none ∨ ∃ s, b = some s ∧ s.createdAt < now) →
      (l.foldl (fun best s =>
          match best with
          | none => some s
          | some b => if b.createdAt ≤ s.createdAt then some s else some b) b = none
        ∨ ∃ s, l.foldl (fun best s =>
          match best with
          | none => some s
          | some b => if b.createdAt ≤ s.createdAt then some s else some b) b = some s
            ∧ s.createdAt < now) := by
  intro l
  induction l with
  | nil => intro b _ hb; simpa using hb
  | cons a rest ih =>
    intro b hl hb
    have ha : a.createdAt < now := hl a (List.mem_cons_self a rest)
    have hrest : ∀ s ∈ rest, s.createdAt < now :=
      fun s hs => hl s (List.mem_cons_of_mem a hs)
    rw [List.foldl_cons]
    apply ih _ hrest
    rcases hb with hb | ⟨s, hb, hs⟩
    · rw [hb]; exact Or.inr ⟨a, rfl, ha⟩
    · rw [hb]
      by_cases hle : s.createdAt ≤ a.createdAt
      · exact Or.inr ⟨a, by simp [hle], ha⟩
      · exact Or.inr ⟨s, by simp [hle], hs⟩

/-- C5 amended: the code stamps each snapshot with the current clock value
and never enforces strictness itself; provided the clock reading is
strictly greater than every existing stamp of the same
`(subject, snapshot_type)`, the new snapshot's `created_at` is strictly
greater than every prior one and `latest_snapshot` returns the new
snapshot.  Equal clock readings violate the claimed strict order (see the
counterexample). -/
theorem C5_latest_snapshot_max_under_fresh_clock
    (st : StoreState) (acc : Nat) (ty : String) (now : Nat)
    (h : ∀ s ∈ st.snapshots,
      s.accountId = acc → s.snapshotType = ty → s.createdAt < now) :
    (_store_snapshot st acc ty now).2.createdAt = now ∧
    (∀ s ∈ st.snapshots, s.accountId = acc → s.snapshotType = ty →
      s.createdAt < (_store_snapshot st acc ty now).2.createdAt) ∧
    latest_snapshot (_store_snapshot st acc ty now).1 acc ty
      = some (_store_snapshot st acc ty now).2 := by
  refine ⟨rfl, h, ?_⟩
  unfold latest_snapshot _store_snapshot
  simp only [List.filter_append]
  have hmatch : (List.filter (fun s : MSnapshot => s.accountId == acc && s.snapshotType == ty)
      [{ id := st.nextId, accountId := acc, snapshotType := ty, createdAt := now }])
      = [{ id := st.nextId, accountId := acc, snapshotType := ty, createdAt := now }] := by
    simp
  rw [hmatch, List.foldl_append]
  have hfiltered : ∀ s ∈ st.snapshots.filter
      (fun s : MSnapshot => s.accountId == acc && s.snapshotType == ty), s.createdAt < now := by
    intro s hs
    rw [List.mem_filter] at hs
    obtain ⟨hmem, hcond⟩ := hs
    simp only [Bool.and_eq_true, beq_iff_eq] at hcond
    exact h s hmem hcond.1 hcond.2
  rcases latest_foldl_bound now
      (st.snapshots.filter (fun s : MSnapshot => s.accountId == acc && s.snapshotType == ty))
      none hfiltered (Or.inl rfl) with hnone | ⟨s, hsome, hlt⟩
  · rw [hnone]; rfl
  · rw [hsome]
    simp [Nat.le_of_lt hlt]

theorem C5_latest_snapshot_max_under_fresh_clock_witness :
    (_store_snapshot (_store_snapshot ⟨[], 0⟩ 1 "followers" 3).1 1 "followers" 5).2.createdAt = 5 ∧
    latest_snapshot
        (_store_snapshot (_store_snapshot ⟨[], 0⟩ 1 "followers" 3).1 1 "followers" 5).1 1 "followers"
      = some (_store_snapshot (_store_snapshot ⟨[], 0⟩ 1 "followers" 3).1 1 "followers" 5).2 := by
  have h := C5_latest_snapshot_max_under_fresh_clock
    (_store_snapshot ⟨[], 0⟩ 1 "followers" 3).1 1 "followers" 5 (by decide)
  exact ⟨h.1, h.2.2⟩

/-- C10: the listing (no limit) is ascending by lowercased username, and
the limited export (`export_snapshot` passes `limit=export_limit` to
`_snapshot_entries`, which slices `entries[:limit]` after sorting) is
exactly the first `n` rows of that sorted order — not the first `n` by
insertion order. -/
theorem C10_snapshot_entries_sorted_and_limit_is_sorted_take
    (entries : List SnapshotEntryRec) (n : Nat) :
    ((_snapshot_entries entries none).map EntryView.username).Pairwise
      (fun a b => pyLower a ≤ pyLower b) ∧
    _snapshot_entries entries (some n) = (_snapshot_entries entries none).take n := by
  constructor
  · have hs : (List.insertionSort entryLe entries).Pairwise entryLe :=
      List.sorted_insertionSort entryLe entries
    simp only [_snapshot_entries, List.pairwise_map]
    exact hs
  · simp only [_snapshot_entries, List.map_take]

end IGFollow

